import Mathlib

/-!
Verification development for the protected video-link relay service
(registration, slug normalization, credential checks, and the two relay
modes).  The definitions shallowly embed the TypeScript handlers of
`main.ts`; strings are processed as `List Char`, the durable key-value
store is an association list, and the network effects (the HEAD probe and
the upstream fetches) are passed in as explicit outcome parameters.
-/

namespace VLink

/-! ## JavaScript character classes and string primitives -/

/-- The JavaScript whitespace class (`\s`, also used by `String.trim`):
tab through carriage return, space, NBSP, and the Unicode space
separators, by code point. -/
def jsWhitespace (c : Char) : Bool :=
  decide (c.toNat = 9 ∨ c.toNat = 10 ∨ c.toNat = 11 ∨ c.toNat = 12 ∨ c.toNat = 13 ∨
    c.toNat = 32 ∨ c.toNat = 160 ∨ c.toNat = 5760 ∨ (8192 ≤ c.toNat ∧ c.toNat ≤ 8202) ∨
    c.toNat = 8232 ∨ c.toNat = 8233 ∨ c.toNat = 8239 ∨ c.toNat = 8287 ∨ c.toNat = 12288 ∨
    c.toNat = 65279)

/-- The characters kept by the slug regex class `[a-z0-9]` (lower-case
letters and digits, by code point). -/
def isSlugKeep (c : Char) : Bool :=
  decide ((97 ≤ c.toNat ∧ c.toNat ≤ 122) ∨ (48 ≤ c.toNat ∧ c.toNat ≤ 57))

/-- Membership in the regex class `[^a-z0-9\s-]` (code point 45 is the
hyphen). -/
def isSlugBad (c : Char) : Bool :=
  !(isSlugKeep c || jsWhitespace c || decide (c.toNat = 45))

/-- The global replacement of `[^a-z0-9\s-]` by a hyphen acts on each
matching character separately. -/
def slugBadToHyphen (c : Char) : Char :=
  if isSlugBad c then '-' else c

/-- One pass of a global regex replacement that rewrites every maximal
run of characters satisfying `p` to the single character `rep`; the
`inRun` flag records whether the previous character was inside a run. -/
def collapseAux (p : Char → Bool) (rep : Char) : Bool → List Char → List Char
  | _, [] => []
  | inRun, c :: cs =>
    if p c then
      if inRun then collapseAux p rep true cs
      else rep :: collapseAux p rep true cs
    else c :: collapseAux p rep false cs

/-- Remove the maximal trailing run of characters satisfying `p` (the
trailing half of the edge-stripping replacement, and the right half of
`trim`). -/
def dropTrailing (p : Char → Bool) : List Char → List Char
  | [] => []
  | c :: cs =>
    match dropTrailing p cs with
    | [] => if p c then [] else [c]
    | d :: ds => c :: d :: ds

/-- JavaScript `String.prototype.trim` on a character list. -/
def jsTrimList (l : List Char) : List Char :=
  dropTrailing jsWhitespace (l.dropWhile jsWhitespace)

/-- JavaScript `String.prototype.trim`. -/
def jsTrimStr (s : String) : String :=
  String.mk (jsTrimList s.data)

/-- The edge-stripping replacement: strip the leading and the trailing
hyphen run. -/
def stripEdgeHyphens (l : List Char) : List Char :=
  dropTrailing (fun c => decide (c.toNat = 45)) (l.dropWhile (fun c => decide (c.toNat = 45)))

/-- The slug cleaning chain of `generateLinkHandler`: trim, lower-case,
replace every character outside `[a-z0-9\s-]` by a hyphen, then the
three global replacements: whitespace runs to a hyphen, hyphen runs to
one hyphen, and leading and trailing hyphen runs to nothing. -/
def normalizeSlug (s : String) : String :=
  String.mk (stripEdgeHyphens
    (collapseAux (fun c => decide (c.toNat = 45)) '-' false
      (collapseAux jsWhitespace '-' false
        (((jsTrimList s.data).map Char.toLower).map slugBadToHyphen))))

/-- The slug normalizer as the specification words it: lower-case the
string, replace every run of characters outside `[a-z0-9\s-]` with a
hyphen, collapse internal whitespace runs to single hyphens, collapse
repeated hyphens to one, and strip leading and trailing hyphens. -/
def specNormalizeSlug (s : String) : String :=
  String.mk (stripEdgeHyphens
    (collapseAux (fun c => decide (c.toNat = 45)) '-' false
      (collapseAux jsWhitespace '-' false
        (collapseAux isSlugBad '-' false
          (s.data.map Char.toLower)))))

/-! ## Content-type resolver -/

/-- `contentType.split(";")[0]` keeps the prefix before the first
semicolon (code point 59). -/
def beforeSemicolon (l : List Char) : List Char :=
  l.takeWhile (fun c => !(decide (c.toNat = 59)))

/-- `mapContentTypeToExtension`: guess a filename extension from an
optional `Content-Type` header value (`null` is `none`; the code treats
the empty string as absent as well, since it is falsy). -/
def mapContentTypeToExtension (contentType : Option String) : String :=
  match contentType with
  | none => ".mp4"
  | some ct =>
    if ct = "" then ".mp4"
    else
      let ty := String.mk (jsTrimList (beforeSemicolon ct.data))
      if ty = "video/mp4" then ".mp4"
      else if ty = "video/x-matroska" then ".mkv"
      else if ty = "video/webm" then ".webm"
      else if ty = "video/quicktime" then ".mov"
      else if ty = "application/octet-stream" then ".bin"
      else ".mp4"

/-- The extension table exactly as the specification states it, as a
function of the already-stripped, already-trimmed media type. -/
def specExtensionTable (ty : String) : String :=
  if ty = "video/mp4" then ".mp4"
  else if ty = "video/x-matroska" then ".mkv"
  else if ty = "video/webm" then ".webm"
  else if ty = "video/quicktime" then ".mov"
  else if ty = "application/octet-stream" then ".bin"
  else ".mp4"

/-! ## Link store -/

/-- The persisted Link Record: `{url, key, filename}`. -/
structure LinkRecord where
  url : String
  key : String
  filename : String
deriving DecidableEq, Repr

/-- The durable key-value store, restricted to the `["links", slug]`
namespace: an association list from slugs to Link Records. -/
abbrev Store := List (String × LinkRecord)

/-- `kv.get(["links", slug])`. -/
def kvGet (st : Store) (slug : String) : Option LinkRecord :=
  (st.find? (fun p => p.1 == slug)).map (fun p => p.2)

/-- `kv.set(["links", slug], rec)`: overwrite-or-insert. -/
def kvSet (st : Store) (slug : String) (rec : LinkRecord) : Store :=
  st.filter (fun p => !(p.1 == slug)) ++ [(slug, rec)]

/-- `kv.delete(["links", slug])`. -/
def kvDelete (st : Store) (slug : String) : Store :=
  st.filter (fun p => !(p.1 == slug))

/-! ## Response headers (case-insensitive, as the `Headers` class) -/

/-- Lower-case a header name, character by character. -/
def lowerName (s : String) : List Char :=
  s.data.map Char.toLower

/-- `headers.get(name)` (first match, case-insensitive). -/
def hGet (hs : List (String × String)) (name : String) : Option String :=
  (hs.find? (fun p => lowerName p.1 == lowerName name)).map (fun p => p.2)

/-- `headers.set(name, value)`. -/
def hSet (hs : List (String × String)) (name value : String) : List (String × String) :=
  hs.filter (fun p => !(lowerName p.1 == lowerName name)) ++ [(name, value)]

/-- `headers.delete(name)`. -/
def hDelete (hs : List (String × String)) (name : String) : List (String × String) :=
  hs.filter (fun p => !(lowerName p.1 == lowerName name))

/-! ## Filename sanitizing and percent-encoding -/

/-- The class `[a-zA-Z0-9.\-_ ]` kept by the fallback-filename
sanitizer (code points: upper, lower, digits, dot 46, hyphen 45,
underscore 95, space 32). -/
def isFnameSafe (c : Char) : Bool :=
  decide ((65 ≤ c.toNat ∧ c.toNat ≤ 90) ∨ (97 ≤ c.toNat ∧ c.toNat ≤ 122) ∨
    (48 ≤ c.toNat ∧ c.toNat ≤ 57) ∨ c.toNat = 46 ∨ c.toNat = 45 ∨ c.toNat = 95 ∨ c.toNat = 32)

/-- `filename.replace(...)` with every character outside the safe class
replaced by an underscore. -/
def sanitizeFilename (s : String) : String :=
  String.mk (s.data.map (fun c => if isFnameSafe c then c else '_'))

/-- The characters `encodeURIComponent` leaves unescaped: alphanumerics
and `- _ . ! ~ * ( )` plus the apostrophe (code point 39). -/
def isUriUnreserved (c : Char) : Bool :=
  decide ((65 ≤ c.toNat ∧ c.toNat ≤ 90) ∨ (97 ≤ c.toNat ∧ c.toNat ≤ 122) ∨
    (48 ≤ c.toNat ∧ c.toNat ≤ 57) ∨ c.toNat = 45 ∨ c.toNat = 95 ∨ c.toNat = 46 ∨
    c.toNat = 33 ∨ c.toNat = 126 ∨ c.toNat = 42 ∨ c.toNat = 39 ∨ c.toNat = 40 ∨ c.toNat = 41)

/-- The UTF-8 bytes of a scalar value. -/
def utf8Bytes (c : Char) : List Nat :=
  let n := c.toNat
  if n < 128 then [n]
  else if n < 2048 then [192 + n / 64, 128 + n % 64]
  else if n < 65536 then [224 + n / 4096, 128 + (n / 64) % 64, 128 + n % 64]
  else [240 + n / 262144, 128 + (n / 4096) % 64, 128 + (n / 64) % 64, 128 + n % 64]

/-- An upper-case hexadecimal digit. -/
def hexDigit (n : Nat) : Char :=
  if n < 10 then Char.ofNat (48 + n) else Char.ofNat (55 + n)

/-- Percent-escape a byte sequence. -/
def percentBytes (bs : List Nat) : List Char :=
  bs.foldr (fun b acc => '%' :: hexDigit (b / 16) :: hexDigit (b % 16) :: acc) []

/-- JavaScript `encodeURIComponent`. -/
def encodeURIComponent (s : String) : String :=
  String.mk (s.data.foldr
    (fun c acc => if isUriUnreserved c then c :: acc else percentBytes (utf8Bytes c) ++ acc) [])

/-- The ASCII apostrophe, used inside the `Content-Disposition` value. -/
def apos : String :=
  String.mk [Char.ofNat 39]

/-! ## Responses and upstream fetch outcomes -/

/-- The data of a handler `Response` the claims talk about: status,
headers, and the relayed body (`none` when the body is not a relayed
upstream stream). -/
structure Resp where
  status : Nat
  headers : List (String × String)
  body : Option String
deriving DecidableEq, Repr

/-- An upstream `fetch` response: status, headers, body (a `none` body
is a null body). -/
structure FetchResponse where
  status : Nat
  headers : List (String × String)
  body : Option String
deriving DecidableEq, Repr

/-- `Response.ok`: status in the range 200 to 299. -/
def fetchOk (r : FetchResponse) : Bool :=
  decide (200 ≤ r.status ∧ r.status ≤ 299)

/-- Outcome of the header-only HEAD probe of `generateLinkHandler`:
either the fetch resolved (with some status and an optional
`Content-Type` header value) or it threw. -/
inductive ProbeOutcome where
  | response (status : Nat) (contentType : Option String)
  | failure
deriving DecidableEq, Repr

/-! ## Access guard and admin handlers -/

/-- `checkAdminAuth`: fails closed when `MASTER_PASSWORD` is absent or
empty (both are falsy), otherwise a strict equality comparison against
the supplied key (`null` when the query parameter is missing). -/
def checkAdminAuth (adminPassword : Option String) (key : Option String) : Bool :=
  match adminPassword with
  | none => false
  | some p => if p = "" then false else decide (key = some p)

/-- Whether `checkAdminAuth` writes its CRITICAL configuration-fault log
line, which it does exactly when the credential is falsy. -/
def checkAdminAuthLogged (adminPassword : Option String) : Bool :=
  match adminPassword with
  | none => true
  | some p => decide (p = "")

/-- What the admin page renders: the miconfiguration error page (500),
the login prompt, or the dashboard listing all records. -/
inductive AdminView where
  | configError
  | loginPrompt
  | dashboard (entries : List (String × LinkRecord))
deriving DecidableEq, Repr

/-- `adminPageHandler`: a falsy credential short-circuits to the 500
error page before any authentication check. -/
def adminPageHandler (adminPassword : Option String) (st : Store) (key : Option String) :
    AdminView :=
  match adminPassword with
  | none => .configError
  | some p =>
    if p = "" then .configError
    else if checkAdminAuth adminPassword key then .dashboard st else .loginPrompt

/-- The HTTP response carrying an `AdminView`. -/
def adminViewResp : AdminView → Resp
  | .configError => ⟨500, [("Content-Type", "text/html")], none⟩
  | .loginPrompt => ⟨200, [("Content-Type", "text/html")], none⟩
  | .dashboard _ => ⟨200, [("Content-Type", "text/html")], none⟩

/-- `deleteLinkHandler`: admin check, then delete when the form id is
truthy, then a 303 redirect. -/
def deleteLinkHandler (adminPassword : Option String) (key : Option String)
    (formId : Option String) (st : Store) : Resp × Store :=
  if checkAdminAuth adminPassword key then
    match formId with
    | some id => if id = "" then (⟨303, [], none⟩, st) else (⟨303, [], none⟩, kvDelete st id)
    | none => (⟨303, [], none⟩, st)
  else (⟨403, [], none⟩, st)

/-! ## Registration -/

/-- The form fields read by `generateLinkHandler` (`none` models a
missing optional `filename` field). -/
structure GenInput where
  url : String
  key : String
  custom_id : String
  filename : Option String
deriving DecidableEq, Repr

/-- `generateLinkHandler`: normalize the slug, validate, check
uniqueness, resolve the filename (probing upstream when no non-blank
override was supplied), persist. -/
def generateLinkHandler (st : Store) (inp : GenInput) (probe : ProbeOutcome) : Resp × Store :=
  let slug := normalizeSlug inp.custom_id
  let filename_override := inp.filename.map jsTrimStr
  if inp.url = "" ∨ inp.key = "" ∨ slug = "" then
    (⟨400, [("Content-Type", "text/html")], none⟩, st)
  else if (kvGet st slug).isSome then
    (⟨409, [("Content-Type", "text/html")], none⟩, st)
  else
    let autoName :=
      match probe with
      | .response _ contentType => slug ++ mapContentTypeToExtension contentType
      | .failure => slug ++ ".mp4"
    let finalFilename :=
      match filename_override with
      | some f => if f = "" then autoName else f
      | none => autoName
    (⟨200, [("Content-Type", "text/html")], none⟩,
      kvSet st slug ⟨inp.url, inp.key, finalFilename⟩)

/-! ## Relay handlers -/

/-- `streamVideoHandler`: lookup, key check, then a GET that forwards
the caller Range header (when present) to the upstream, modelled as the
`upstream` function from the forwarded header list to a response. -/
def streamVideoHandler (st : Store) (id key : String) (range : Option String)
    (upstream : List (String × String) → FetchResponse) : Resp :=
  match kvGet st id with
  | none => ⟨404, [], none⟩
  | some rec =>
    if rec.key ≠ key then ⟨403, [], none⟩
    else
      let fetchHeaders := match range with
        | some r => [("Range", r)]
        | none => []
      let resp := upstream fetchHeaders
      if !(fetchOk resp) then ⟨resp.status, [], none⟩
      else
        ⟨resp.status,
          hDelete (hSet resp.headers "Accept-Ranges" "bytes") "Content-Disposition",
          resp.body⟩

/-- `downloadVideoHandler`: lookup, key check, plain GET, then a forced
200 attachment response. -/
def downloadVideoHandler (st : Store) (id key : String) (fetchRes : FetchResponse) : Resp :=
  match kvGet st id with
  | none => ⟨404, [], none⟩
  | some rec =>
    if rec.key ≠ key then ⟨403, [], none⟩
    else if !(fetchOk fetchRes) ∨ fetchRes.body = none then ⟨fetchRes.status, [], none⟩
    else
      let cd := "attachment; filename=\"" ++ sanitizeFilename rec.filename ++
        "\"; filename*=UTF-8" ++ apos ++ apos ++ encodeURIComponent rec.filename
      let base := hSet (hSet [] "Content-Disposition" cd) "Content-Type"
        "application/octet-stream"
      let hs :=
        match hGet fetchRes.headers "Content-Length" with
        | some v => if v = "" then base else hSet base "Content-Length" v
        | none => base
      ⟨200, hs, fetchRes.body⟩

/-! ## Router -/

/-- An inbound request, pre-parsed: the path as segments, the `key`
query parameter (`none` when absent), the `Range` request header, and
the form fields consumed by the POST handlers. -/
structure HttpReq where
  method : String
  path : List String
  keyParam : Option String
  rangeHeader : Option String
  gen : GenInput
  deleteId : Option String
deriving Repr

/-- Truthiness of `url.searchParams.get("key")`: present and non-empty. -/
def keyTruthy : Option String → Bool
  | none => false
  | some s => !(s == "")

/-- The `serve` router: fixed paths first, then the `/stream/:id`
pattern, then `/download/:id`, then 404.  The `:id` group matches one
non-empty slash-free segment. -/
def serve (adminPassword : Option String) (st : Store) (req : HttpReq)
    (upstream : List (String × String) → FetchResponse)
    (downloadFetch : FetchResponse) (probe : ProbeOutcome) : Resp × Store :=
  if req.path = [] ∧ req.method = "GET" then
    (⟨200, [("Content-Type", "text/html")], none⟩, st)
  else if req.path = ["generate"] ∧ req.method = "POST" then
    generateLinkHandler st req.gen probe
  else if req.path = ["admin"] ∧ req.method = "GET" then
    (adminViewResp (adminPageHandler adminPassword st req.keyParam), st)
  else if req.path = ["delete"] ∧ req.method = "POST" then
    deleteLinkHandler adminPassword req.keyParam req.deleteId st
  else
    match req.path with
    | ["stream", id] =>
      if req.method = "GET" ∧ id ≠ "" then
        if keyTruthy req.keyParam then
          (streamVideoHandler st id (req.keyParam.getD "") req.rangeHeader upstream, st)
        else (⟨401, [], none⟩, st)
      else (⟨404, [], none⟩, st)
    | ["download", id] =>
      if req.method = "GET" ∧ id ≠ "" then
        if keyTruthy req.keyParam then
          (downloadVideoHandler st id (req.keyParam.getD "") downloadFetch, st)
        else (⟨401, [], none⟩, st)
      else (⟨404, [], none⟩, st)
    | _ => (⟨404, [], none⟩, st)

end VLink

namespace VLink

/-! ## Association-list lemmas -/

theorem find?_filter_not {α : Type} (q : α → Bool) (l : List α) :
    (l.filter (fun x => !(q x))).find? q = none := by
  induction l with
  | nil => rfl
  | cons c l ih =>
    by_cases hq : q c = true <;>
      simp [List.filter_cons, hq, List.find?_cons, ih]

theorem find?_filter_of_imp {α : Type} (p q : α → Bool) (l : List α)
    (h : ∀ x, q x = true → p x = false) :
    (l.filter (fun x => !(p x))).find? q = l.find? q := by
  induction l with
  | nil => rfl
  | cons c l ih =>
    by_cases hp : p c = true
    · have hq : q c = false := by
        cases hqc : q c with
        | false => rfl
        | true => rw [h c hqc] at hp; exact absurd hp (by simp)
      simp [List.filter_cons, hp, List.find?_cons, hq, ih]
    · simp only [Bool.not_eq_true] at hp
      by_cases hq : q c = true <;>
        simp [List.filter_cons, hp, List.find?_cons, hq, ih]

theorem kvGet_kvSet_self (st : Store) (k : String) (v : LinkRecord) :
    kvGet (kvSet st k v) k = some v := by
  simp [kvGet, kvSet, List.find?_append, find?_filter_not, List.find?_cons]

theorem kvGet_kvSet_ne (st : Store) (k k' : String) (v : LinkRecord) (h : k' ≠ k) :
    kvGet (kvSet st k v) k' = kvGet st k' := by
  have hfind := find?_filter_of_imp (fun x => x.1 == k) (fun x => x.1 == k') st
    (by intro x hx; simp only [beq_iff_eq] at hx ⊢; simp [hx, h])
  simp only [kvGet, kvSet, List.find?_append, hfind]
  have : List.find? (fun x => x.1 == k') [(k, v)] = none := by
    simp [List.find?_cons, Ne.symm h]
  rw [this, Option.or_none]

theorem hGet_hSet_self (hs : List (String × String)) (n v : String) :
    hGet (hSet hs n v) n = some v := by
  simp [hGet, hSet, List.find?_append, find?_filter_not, List.find?_cons]

theorem hGet_hSet_ne (hs : List (String × String)) (n v m : String)
    (h : lowerName m ≠ lowerName n) :
    hGet (hSet hs n v) m = hGet hs m := by
  have hfind := find?_filter_of_imp (fun x => lowerName x.1 == lowerName n)
    (fun x => lowerName x.1 == lowerName m) hs
    (by intro x hx; simp only [beq_iff_eq] at hx ⊢; simp [hx, h])
  simp only [hGet, hSet, List.find?_append, hfind]
  have : List.find? (fun x => lowerName x.1 == lowerName m) [(n, v)] = none := by
    simp [List.find?_cons, Ne.symm h]
  rw [this, Option.or_none]

theorem hGet_hDelete_self (hs : List (String × String)) (n : String) :
    hGet (hDelete hs n) n = none := by
  simp [hGet, hDelete, find?_filter_not]

theorem hGet_hDelete_ne (hs : List (String × String)) (n m : String)
    (h : lowerName m ≠ lowerName n) :
    hGet (hDelete hs n) m = hGet hs m := by
  have hfind := find?_filter_of_imp (fun x => lowerName x.1 == lowerName n)
    (fun x => lowerName x.1 == lowerName m) hs
    (by intro x hx; simp only [beq_iff_eq] at hx ⊢; simp [hx, h])
  simp only [hGet, hDelete, hfind]

/-! ## Slug normal form

Both the code pipeline (per-character replacement, then whitespace-run
and hyphen-run collapsing) and the specification pipeline (run
replacement, then the same collapsing) reduce, before edge stripping,
to a single normal form `slugNF`: kept characters pass through and
every maximal run of non-kept characters becomes one hyphen. -/

theorem slugKeep_not_ws (c : Char) (h : isSlugKeep c = true) : jsWhitespace c = false := by
  simp only [isSlugKeep, decide_eq_true_eq] at h
  simp only [jsWhitespace, decide_eq_false_iff_not]
  omega

theorem slugKeep_not_hyp (c : Char) (h : isSlugKeep c = true) :
    decide (c.toNat = 45) = false := by
  simp only [isSlugKeep, decide_eq_true_eq] at h
  simp only [decide_eq_false_iff_not]
  omega

theorem ws_not_slugKeep (c : Char) (h : jsWhitespace c = true) : isSlugKeep c = false := by
  simp only [jsWhitespace, decide_eq_true_eq] at h
  simp only [isSlugKeep, decide_eq_false_iff_not]
  omega

theorem slugBadToHyphen_keep (c : Char) (h : isSlugKeep c = true) : slugBadToHyphen c = c := by
  simp [slugBadToHyphen, isSlugBad, h]

theorem slugBadToHyphen_ws (c : Char) (h : jsWhitespace c = true) : slugBadToHyphen c = c := by
  simp [slugBadToHyphen, isSlugBad, h]

theorem slugBadToHyphen_other (c : Char) (hk : isSlugKeep c = false)
    (hw : jsWhitespace c = false) :
    jsWhitespace (slugBadToHyphen c) = false ∧ (slugBadToHyphen c).toNat = 45 := by
  by_cases hd : c.toNat = 45
  · have hb : isSlugBad c = false := by simp [isSlugBad, hd]
    simp only [slugBadToHyphen, hb, Bool.false_eq_true, if_false]
    exact ⟨hw, hd⟩
  · have hb : isSlugBad c = true := by simp [isSlugBad, hk, hw, hd]
    simp only [slugBadToHyphen, hb, if_true]
    exact ⟨by decide, by decide⟩

/-- The common normal form of the two normalization pipelines before
edge stripping: kept characters pass through, each maximal run of other
characters becomes a single hyphen; `inSep` tells whether the previous
character belonged to such a run. -/
def slugNF : Bool → List Char → List Char
  | _, [] => []
  | inSep, c :: cs =>
    if isSlugKeep c then c :: slugNF false cs
    else if inSep then slugNF true cs
    else '-' :: slugNF true cs

theorem code_pipeline_eq_slugNF :
    ∀ (m : List Char) (bw bh : Bool), (bw = true → bh = true) →
      collapseAux (fun c => decide (c.toNat = 45)) '-' bh
        (collapseAux jsWhitespace '-' bw (m.map slugBadToHyphen)) = slugNF bh m := by
  intro m
  induction m with
  | nil => intro bw bh _; rfl
  | cons c m ih =>
    intro bw bh hinv
    by_cases hk : isSlugKeep c = true
    · have h1 := slugBadToHyphen_keep c hk
      have h2 := slugKeep_not_ws c hk
      have h3 := slugKeep_not_hyp c hk
      simp only [List.map_cons, h1, collapseAux, h2, Bool.false_eq_true, if_false, h3,
        slugNF, hk, if_true]
      rw [ih false false (fun h => h)]
    · have hk' : isSlugKeep c = false := by
        cases h : isSlugKeep c with
        | false => rfl
        | true => exact absurd h hk
      by_cases hw : jsWhitespace c = true
      · have h1 := slugBadToHyphen_ws c hw
        cases bw with
        | true =>
          have hbh : bh = true := hinv rfl
          subst hbh
          simp only [List.map_cons, h1, collapseAux, hw, if_true, slugNF, hk',
            Bool.false_eq_true, if_false]
          exact ih true true (fun _ => rfl)
        | false =>
          cases bh with
          | true =>
            simp only [List.map_cons, h1, collapseAux, hw, if_true, Bool.false_eq_true,
              if_false, slugNF, hk']
            have hthis : decide (('-').toNat = 45) = true := by decide
            try simp only [hthis, if_true, Bool.false_eq_true, if_false]
            exact ih true true (fun _ => rfl)
          | false =>
            simp only [List.map_cons, h1, collapseAux, hw, if_true, Bool.false_eq_true,
              if_false, slugNF, hk']
            have hthis : decide (('-').toNat = 45) = true := by decide
            try simp only [hthis, if_true, Bool.false_eq_true, if_false]
            first
            | exact ih true true (fun _ => rfl)
            | rw [ih true true (fun _ => rfl)]
      · have hw' : jsWhitespace c = false := by
          cases h : jsWhitespace c with
          | false => rfl
          | true => exact absurd h hw
        obtain ⟨hx1, hx2⟩ := slugBadToHyphen_other c hk' hw'
        have hx3 : decide ((slugBadToHyphen c).toNat = 45) = true := by
          simp [hx2]
        cases bh with
        | true =>
          simp only [List.map_cons, collapseAux, hx1, Bool.false_eq_true, if_false, hx3,
            if_true, slugNF, hk']
          exact ih false true (fun _ => rfl)
        | false =>
          simp only [List.map_cons, collapseAux, hx1, Bool.false_eq_true, if_false, hx3,
            if_true, slugNF, hk']
          rw [ih false true (fun _ => rfl)]

theorem spec_pipeline_eq_slugNF :
    ∀ (m : List Char) (bb bw bh : Bool), (bb = true → bh = true) → (bw = true → bh = true) →
      collapseAux (fun c => decide (c.toNat = 45)) '-' bh
        (collapseAux jsWhitespace '-' bw (collapseAux isSlugBad '-' bb m)) = slugNF bh m := by
  intro m
  induction m with
  | nil => intro bb bw bh _ _; rfl
  | cons c m ih =>
    intro bb bw bh hinvb hinvw
    by_cases hk : isSlugKeep c = true
    · have hbad : isSlugBad c = false := by simp [isSlugBad, hk]
      have h2 := slugKeep_not_ws c hk
      have h3 := slugKeep_not_hyp c hk
      simp only [collapseAux, hbad, Bool.false_eq_true, if_false, h2, h3, slugNF, hk, if_true]
      rw [ih false false false (fun h => h) (fun h => h)]
    · have hk' : isSlugKeep c = false := by
        cases h : isSlugKeep c with
        | false => rfl
        | true => exact absurd h hk
      by_cases hw : jsWhitespace c = true
      · have hbad : isSlugBad c = false := by simp [isSlugBad, hw]
        cases bw with
        | true =>
          have hbh : bh = true := hinvw rfl
          subst hbh
          simp only [collapseAux, hbad, Bool.false_eq_true, if_false, hw, if_true,
            slugNF, hk']
          exact ih false true true (fun h => (Bool.false_ne_true h).elim) (fun _ => rfl)
        | false =>
          cases bh with
          | true =>
            simp only [collapseAux, hbad, Bool.false_eq_true, if_false, hw, if_true,
              slugNF, hk']
            have hthis : decide (('-').toNat = 45) = true := by decide
            try simp only [hthis, if_true, Bool.false_eq_true, if_false]
            exact ih false true true (fun h => (Bool.false_ne_true h).elim) (fun _ => rfl)
          | false =>
            simp only [collapseAux, hbad, Bool.false_eq_true, if_false, hw, if_true,
              slugNF, hk']
            have hthis : decide (('-').toNat = 45) = true := by decide
            try simp only [hthis, if_true, Bool.false_eq_true, if_false]
            first
            | exact ih false true true (fun h => (Bool.false_ne_true h).elim) (fun _ => rfl)
            | rw [ih false true true (fun h => (Bool.false_ne_true h).elim) (fun _ => rfl)]
      · have hw' : jsWhitespace c = false := by
          cases h : jsWhitespace c with
          | false => rfl
          | true => exact absurd h hw
        by_cases hd : c.toNat = 45
        · have hbad : isSlugBad c = false := by simp [isSlugBad, hd]
          have hd' : decide (c.toNat = 45) = true := by simp [hd]
          cases bh with
          | true =>
            simp only [collapseAux, hbad, Bool.false_eq_true, if_false, hw', hd', if_true,
              slugNF, hk']
            exact ih false false true (fun h => (Bool.false_ne_true h).elim)
              (fun h => (Bool.false_ne_true h).elim)
          | false =>
            simp only [collapseAux, hbad, Bool.false_eq_true, if_false, hw', hd', if_true,
              slugNF, hk']
            rw [ih false false true (fun h => (Bool.false_ne_true h).elim)
              (fun h => (Bool.false_ne_true h).elim)]
        · have hbad : isSlugBad c = true := by simp [isSlugBad, hk', hw', hd]
          cases bb with
          | true =>
            have hbh : bh = true := hinvb rfl
            subst hbh
            simp only [collapseAux, hbad, if_true, slugNF, hk', Bool.false_eq_true, if_false]
            exact ih true bw true (fun _ => rfl) (fun _ => rfl)
          | false =>
            have hws : jsWhitespace '-' = false := by decide
            have hhy : decide (('-').toNat = 45) = true := by decide
            cases bh with
            | true =>
              simp only [collapseAux, hbad, if_true, Bool.false_eq_true, if_false, hws,
                hhy, slugNF, hk']
              exact ih true false true (fun _ => rfl) (fun h => (Bool.false_ne_true h).elim)
            | false =>
              simp only [collapseAux, hbad, if_true, Bool.false_eq_true, if_false, hws,
                hhy, slugNF, hk']
              rw [ih true false true (fun _ => rfl) (fun h => (Bool.false_ne_true h).elim)]

/-- The `inSep` state of `slugNF` after consuming a list: the last
consumed character decides it. -/
def slugNFst : Bool → List Char → Bool
  | b, [] => b
  | _, c :: cs => slugNFst (!(isSlugKeep c)) cs

theorem slugNF_append :
    ∀ (m n : List Char) (b : Bool),
      slugNF b (m ++ n) = slugNF b m ++ slugNF (slugNFst b m) n := by
  intro m
  induction m with
  | nil => intro n b; rfl
  | cons c m ih =>
    intro n b
    by_cases hk : isSlugKeep c = true
    · simp only [List.cons_append, slugNF, hk, if_true, slugNFst, Bool.not_true,
        List.append_eq]
      rw [ih n false]
    · have hk' : isSlugKeep c = false := by
        cases h : isSlugKeep c with
        | false => rfl
        | true => exact absurd h hk
      cases b with
      | true =>
        simp only [List.cons_append, slugNF, hk', Bool.false_eq_true, if_false, if_true,
          slugNFst, Bool.not_false, List.append_eq]
        rw [ih n true]
      | false =>
        simp only [List.cons_append, slugNF, hk', Bool.false_eq_true, if_false, slugNFst,
          Bool.not_false, List.append_eq]
        rw [ih n true]

theorem slugNF_sep_true (w : List Char) (h : ∀ c ∈ w, isSlugKeep c = false) :
    slugNF true w = [] := by
  induction w with
  | nil => rfl
  | cons c w ih =>
    have hc := h c (List.mem_cons_self c w)
    simp only [slugNF, hc, Bool.false_eq_true, if_false, if_true]
    exact ih (fun x hx => h x (List.mem_cons_of_mem c hx))

theorem slugNF_sep_false (w : List Char) (h : ∀ c ∈ w, isSlugKeep c = false) :
    slugNF false w = [] ∨ slugNF false w = ['-'] := by
  cases w with
  | nil => exact Or.inl rfl
  | cons c w =>
    have hc := h c (List.mem_cons_self c w)
    right
    simp only [slugNF, hc, Bool.false_eq_true, if_false]
    rw [slugNF_sep_true w (fun x hx => h x (List.mem_cons_of_mem c hx))]

theorem stripEdgeHyphens_cons_hyphen (l : List Char) :
    stripEdgeHyphens ('-' :: l) = stripEdgeHyphens l := by
  simp [stripEdgeHyphens, List.dropWhile_cons]

theorem dropTrailing_append_single (p : Char → Bool) (r : Char) (hp : p r = true)
    (l : List Char) : dropTrailing p (l ++ [r]) = dropTrailing p l := by
  induction l with
  | nil => simp [dropTrailing, hp]
  | cons c l ih => simp only [List.cons_append, dropTrailing, List.append_eq, ih]

theorem stripEdgeHyphens_append_hyphen (l : List Char) :
    stripEdgeHyphens (l ++ ['-']) = stripEdgeHyphens l := by
  unfold stripEdgeHyphens
  rw [List.dropWhile_append]
  by_cases h : (l.dropWhile (fun c => decide (c.toNat = 45))).isEmpty = true
  · rw [if_pos h]
    have h2 : List.dropWhile (fun c => decide (c.toNat = 45)) ['-'] = [] := by decide
    rw [h2, List.isEmpty_iff.mp h]
  · rw [if_neg h]
    exact dropTrailing_append_single _ '-' (by decide) _

theorem stripEdge_slugNF_state (m : List Char) :
    stripEdgeHyphens (slugNF true m) = stripEdgeHyphens (slugNF false m) := by
  cases m with
  | nil => rfl
  | cons c cs =>
    by_cases hk : isSlugKeep c = true
    · simp only [slugNF, hk, if_true]
    · have hk' : isSlugKeep c = false := by
        cases h : isSlugKeep c with
        | false => rfl
        | true => exact absurd h hk
      simp only [slugNF, hk', Bool.false_eq_true, if_false, if_true]
      rw [stripEdgeHyphens_cons_hyphen]

theorem slugNF_ws_prefix :
    ∀ (p n : List Char), (∀ c ∈ p, isSlugKeep c = false) →
      stripEdgeHyphens (slugNF false (p ++ n)) = stripEdgeHyphens (slugNF false n) := by
  intro p
  induction p with
  | nil => intro n _; rfl
  | cons c p ih =>
    intro n h
    have hc : isSlugKeep c = false := h c (List.mem_cons_self c p)
    simp only [List.cons_append, slugNF, hc, Bool.false_eq_true, if_false]
    rw [stripEdgeHyphens_cons_hyphen, stripEdge_slugNF_state]
    exact ih n (fun x hx => h x (List.mem_cons_of_mem c hx))

theorem dropTrailing_decomp (p : Char → Bool) :
    ∀ l : List Char, ∃ w, l = dropTrailing p l ++ w ∧ ∀ c ∈ w, p c = true := by
  intro l
  induction l with
  | nil => exact ⟨[], rfl, fun c hc => absurd hc (List.not_mem_nil c)⟩
  | cons c l ih =>
    obtain ⟨w, hw, hall⟩ := ih
    cases hd : dropTrailing p l with
    | nil =>
      rw [hd, List.nil_append] at hw
      by_cases hp : p c = true
      · refine ⟨c :: w, ?_, ?_⟩
        · simp only [dropTrailing, hd, hp, if_true, List.nil_append]
          rw [← hw]
        · intro x hx
          rcases List.mem_cons.mp hx with h | h
          · rw [h]; exact hp
          · exact hall x h
      · refine ⟨w, ?_, hall⟩
        have hp' : p c = false := by
          cases h : p c with
          | false => rfl
          | true => exact absurd h hp
        simp only [dropTrailing, hd, hp', Bool.false_eq_true, if_false, List.cons_append,
          List.nil_append]
        rw [← hw]
    | cons d ds =>
      refine ⟨w, ?_, hall⟩
      rw [hd] at hw
      simp only [dropTrailing, hd, List.cons_append]
      rw [hw]
      simp [List.cons_append]

/-! ## Lower-casing facts -/

theorem charToNat_ofNat_lt (n : Nat) (h : n < 55296) : (Char.ofNat n).toNat = n := by
  have hv : n.isValidChar := Or.inl h
  simp only [Char.ofNat, dif_pos hv, Char.ofNatAux, Char.toNat, UInt32.toNat, UInt32.ofNat',
    BitVec.toNat_ofNatLt]

theorem charToNat_toLower (c : Char) :
    (Char.toLower c).toNat = if 65 ≤ c.toNat ∧ c.toNat ≤ 90 then c.toNat + 32 else c.toNat := by
  by_cases h : 65 ≤ c.toNat ∧ c.toNat ≤ 90
  · rw [if_pos h]
    unfold Char.toLower
    rw [if_pos (by omega)]
    exact charToNat_ofNat_lt _ (by omega)
  · rw [if_neg h]
    unfold Char.toLower
    rw [if_neg (by omega)]

theorem ws_toLower (c : Char) : jsWhitespace (Char.toLower c) = jsWhitespace c := by
  have h := charToNat_toLower c
  by_cases hc : 65 ≤ c.toNat ∧ c.toNat ≤ 90
  · rw [if_pos hc] at h
    have h1 : jsWhitespace c = false := by
      simp only [jsWhitespace, decide_eq_false_iff_not]; omega
    have h2 : jsWhitespace (Char.toLower c) = false := by
      simp only [jsWhitespace, decide_eq_false_iff_not, h]; omega
    rw [h1, h2]
  · rw [if_neg hc] at h
    simp only [jsWhitespace, h]

/-! ## The two normalizers agree -/

theorem normalizeSlug_eq_NF (s : String) :
    normalizeSlug s =
      String.mk (stripEdgeHyphens (slugNF false ((jsTrimList s.data).map Char.toLower))) := by
  unfold normalizeSlug
  rw [code_pipeline_eq_slugNF _ false false (fun h => h)]

theorem specNormalizeSlug_eq_NF (s : String) :
    specNormalizeSlug s =
      String.mk (stripEdgeHyphens (slugNF false (s.data.map Char.toLower))) := by
  unfold specNormalizeSlug
  rw [spec_pipeline_eq_slugNF _ false false false (fun h => h) (fun h => h)]

theorem strip_slugNF_trim (l : List Char) :
    stripEdgeHyphens (slugNF false (l.map Char.toLower)) =
    stripEdgeHyphens (slugNF false ((jsTrimList l).map Char.toLower)) := by
  obtain ⟨w, hwdecomp, hwall⟩ := dropTrailing_decomp jsWhitespace (l.dropWhile jsWhitespace)
  have hT : l.dropWhile jsWhitespace = jsTrimList l ++ w := hwdecomp
  have hpre : ∀ x ∈ (l.takeWhile jsWhitespace).map Char.toLower, isSlugKeep x = false := by
    intro x hx
    obtain ⟨c, hc, rfl⟩ := List.mem_map.mp hx
    have hcw := List.mem_takeWhile_imp hc
    exact ws_not_slugKeep _ (by rw [ws_toLower]; exact hcw)
  have hBsep : ∀ x ∈ w.map Char.toLower, isSlugKeep x = false := by
    intro x hx
    obtain ⟨c, hc, rfl⟩ := List.mem_map.mp hx
    have hcw := hwall c hc
    exact ws_not_slugKeep _ (by rw [ws_toLower]; exact hcw)
  calc stripEdgeHyphens (slugNF false (l.map Char.toLower))
      = stripEdgeHyphens (slugNF false ((l.takeWhile jsWhitespace).map Char.toLower ++
          ((jsTrimList l).map Char.toLower ++ w.map Char.toLower))) := by
        rw [← List.map_append, ← List.map_append, ← hT, List.takeWhile_append_dropWhile]
    _ = stripEdgeHyphens (slugNF false ((jsTrimList l).map Char.toLower ++
          w.map Char.toLower)) := slugNF_ws_prefix _ _ hpre
    _ = stripEdgeHyphens (slugNF false ((jsTrimList l).map Char.toLower) ++
          slugNF (slugNFst false ((jsTrimList l).map Char.toLower))
            (w.map Char.toLower)) := by rw [slugNF_append]
    _ = stripEdgeHyphens (slugNF false ((jsTrimList l).map Char.toLower)) := by
        cases hst : slugNFst false ((jsTrimList l).map Char.toLower) with
        | true => rw [slugNF_sep_true _ hBsep, List.append_nil]
        | false =>
          rcases slugNF_sep_false _ hBsep with h | h
          · rw [h, List.append_nil]
          · rw [h, stripEdgeHyphens_append_hyphen]

theorem specNormalizeSlug_eq_normalizeSlug (s : String) :
    specNormalizeSlug s = normalizeSlug s := by
  rw [specNormalizeSlug_eq_NF, normalizeSlug_eq_NF]
  exact congrArg String.mk (strip_slugNF_trim s.data)

/-! ## URL-safety of normalized slugs -/

/-- No two adjacent hyphens. -/
def noDoubleHyphen : List Char → Bool
  | [] => true
  | [_] => true
  | a :: b :: rest =>
    (!(decide (a.toNat = 45) && decide (b.toNat = 45))) && noDoubleHyphen (b :: rest)

theorem slugNF_chars :
    ∀ (m : List Char) (b : Bool) (x : Char), x ∈ slugNF b m →
      (isSlugKeep x || decide (x.toNat = 45)) = true := by
  intro m
  induction m with
  | nil => intro b x hx; cases hx
  | cons c m ih =>
    intro b x hx
    by_cases hk : isSlugKeep c = true
    · simp only [slugNF, hk, if_true] at hx
      rcases List.mem_cons.mp hx with h | h
      · rw [h, hk]; rfl
      · exact ih false x h
    · have hk' : isSlugKeep c = false := by
        cases h : isSlugKeep c with
        | false => rfl
        | true => exact absurd h hk
      cases b with
      | true =>
        simp only [slugNF, hk', Bool.false_eq_true, if_false, if_true] at hx
        exact ih true x hx
      | false =>
        simp only [slugNF, hk', Bool.false_eq_true, if_false] at hx
        rcases List.mem_cons.mp hx with h | h
        · rw [h]; decide
        · exact ih true x h

theorem slugNF_head_true (m : List Char) :
    ∀ x, (slugNF true m).head? = some x → isSlugKeep x = true := by
  induction m with
  | nil => intro x hx; cases hx
  | cons c m ih =>
    intro x hx
    by_cases hk : isSlugKeep c = true
    · simp only [slugNF, hk, if_true, List.head?_cons, Option.some.injEq] at hx
      rw [← hx]; exact hk
    · have hk' : isSlugKeep c = false := by
        cases h : isSlugKeep c with
        | false => rfl
        | true => exact absurd h hk
      simp only [slugNF, hk', Bool.false_eq_true, if_false, if_true] at hx
      exact ih x hx

theorem noDouble_cons_keep (a : Char) (l : List Char) (ha : decide (a.toNat = 45) = false)
    (hl : noDoubleHyphen l = true) : noDoubleHyphen (a :: l) = true := by
  cases l with
  | nil => rfl
  | cons b rest => simp [noDoubleHyphen, ha, hl]

theorem slugNF_noDouble : ∀ (m : List Char) (b : Bool), noDoubleHyphen (slugNF b m) = true := by
  intro m
  induction m with
  | nil => intro b; rfl
  | cons c m ih =>
    intro b
    by_cases hk : isSlugKeep c = true
    · simp only [slugNF, hk, if_true]
      exact noDouble_cons_keep c _ (slugKeep_not_hyp c hk) (ih false)
    · have hk' : isSlugKeep c = false := by
        cases h : isSlugKeep c with
        | false => rfl
        | true => exact absurd h hk
      cases b with
      | true =>
        simp only [slugNF, hk', Bool.false_eq_true, if_false, if_true]
        exact ih true
      | false =>
        simp only [slugNF, hk', Bool.false_eq_true, if_false]
        cases hnf : slugNF true m with
        | nil => rfl
        | cons d ds =>
          have hd : isSlugKeep d = true := slugNF_head_true m d (by rw [hnf]; rfl)
          have hdh := slugKeep_not_hyp d hd
          have hnd := ih true
          rw [hnf] at hnd
          simp [noDoubleHyphen, hdh, hnd]

theorem noDouble_tail (c : Char) (l : List Char) (h : noDoubleHyphen (c :: l) = true) :
    noDoubleHyphen l = true := by
  cases l with
  | nil => rfl
  | cons b rest =>
    simp only [noDoubleHyphen, Bool.and_eq_true] at h
    exact h.2

theorem noDouble_dropWhile (p : Char → Bool) :
    ∀ l : List Char, noDoubleHyphen l = true → noDoubleHyphen (l.dropWhile p) = true := by
  intro l
  induction l with
  | nil => intro _; rfl
  | cons c l ih =>
    intro h
    rw [List.dropWhile_cons]
    by_cases hp : p c = true
    · rw [if_pos hp]
      exact ih (noDouble_tail c l h)
    · rw [if_neg hp]
      exact h

theorem head?_dropTrailing (p : Char → Bool) :
    ∀ l : List Char, dropTrailing p l ≠ [] → (dropTrailing p l).head? = l.head? := by
  intro l
  induction l with
  | nil => intro h; exact absurd rfl h
  | cons c l _ =>
    intro h
    cases hd : dropTrailing p l with
    | nil =>
      by_cases hp : p c = true
      · exfalso; apply h; simp [dropTrailing, hd, hp]
      · have hp' : p c = false := by
          cases hh : p c with
          | false => rfl
          | true => exact absurd hh hp
        simp [dropTrailing, hd, hp']
    | cons d ds => simp [dropTrailing, hd]

theorem noDouble_dropTrailing (p : Char → Bool) :
    ∀ l : List Char, noDoubleHyphen l = true → noDoubleHyphen (dropTrailing p l) = true := by
  intro l
  induction l with
  | nil => intro _; rfl
  | cons c l ih =>
    intro h
    cases hd : dropTrailing p l with
    | nil =>
      by_cases hp : p c = true
      · rw [show dropTrailing p (c :: l) = [] by simp [dropTrailing, hd, hp]]; rfl
      · have hp' : p c = false := by
          cases hh : p c with
          | false => rfl
          | true => exact absurd hh hp
        rw [show dropTrailing p (c :: l) = [c] by simp [dropTrailing, hd, hp']]; rfl
    | cons d ds =>
      have hres : dropTrailing p (c :: l) = c :: d :: ds := by
        simp [dropTrailing, hd]
      rw [hres]
      cases l with
      | nil => simp [dropTrailing] at hd
      | cons e l' =>
        have hde : d = e := by
          have hne : dropTrailing p (e :: l') ≠ [] := by rw [hd]; exact List.cons_ne_nil d ds
          have := head?_dropTrailing p (e :: l') hne
          rw [hd] at this
          simpa using this
        have hnd : noDoubleHyphen (d :: ds) = true := by
          rw [← hd]; exact ih (noDouble_tail c (e :: l') h)
        simp only [noDoubleHyphen, Bool.and_eq_true] at h ⊢
        refine ⟨?_, hnd⟩
        rw [hde]
        exact h.1

theorem getLast?_dropTrailing (p : Char → Bool) :
    ∀ (l : List Char) (x : Char), (dropTrailing p l).getLast? = some x → p x = false := by
  intro l
  induction l with
  | nil => intro x hx; cases hx
  | cons c l ih =>
    intro x hx
    cases hd : dropTrailing p l with
    | nil =>
      by_cases hp : p c = true
      · rw [show dropTrailing p (c :: l) = [] by simp [dropTrailing, hd, hp]] at hx
        cases hx
      · have hp' : p c = false := by
          cases hh : p c with
          | false => rfl
          | true => exact absurd hh hp
        rw [show dropTrailing p (c :: l) = [c] by simp [dropTrailing, hd, hp']] at hx
        simp only [List.getLast?_singleton, Option.some.injEq] at hx
        rw [← hx]; exact hp'
    | cons d ds =>
      rw [show dropTrailing p (c :: l) = c :: d :: ds by simp [dropTrailing, hd]] at hx
      rw [List.getLast?_cons_cons] at hx
      apply ih
      rw [hd]
      exact hx

theorem mem_dropTrailing (p : Char → Bool) :
    ∀ (l : List Char) (x : Char), x ∈ dropTrailing p l → x ∈ l := by
  intro l
  induction l with
  | nil => intro x hx; cases hx
  | cons c l ih =>
    intro x hx
    cases hd : dropTrailing p l with
    | nil =>
      by_cases hp : p c = true
      · rw [show dropTrailing p (c :: l) = [] by simp [dropTrailing, hd, hp]] at hx
        cases hx
      · have hp' : p c = false := by
          cases hh : p c with
          | false => rfl
          | true => exact absurd hh hp
        rw [show dropTrailing p (c :: l) = [c] by simp [dropTrailing, hd, hp']] at hx
        rcases List.mem_cons.mp hx with h | h
        · rw [h]; exact List.mem_cons_self c l
        · cases h
    | cons d ds =>
      rw [show dropTrailing p (c :: l) = c :: d :: ds by simp [dropTrailing, hd]] at hx
      rcases List.mem_cons.mp hx with h | h
      · rw [h]; exact List.mem_cons_self c l
      · apply List.mem_cons_of_mem
        apply ih
        rw [hd]
        exact h

theorem stripEdge_head (l : List Char) :
    ∀ x, (stripEdgeHyphens l).head? = some x → decide (x.toNat = 45) = false := by
  intro x hx
  have hne : stripEdgeHyphens l ≠ [] := by
    intro h; rw [h] at hx; cases hx
  unfold stripEdgeHyphens at hx hne
  rw [head?_dropTrailing _ _ hne] at hx
  have h := List.head?_dropWhile_not (fun c => decide (c.toNat = 45)) l
  rw [hx] at h
  exact h

/-- URL-safety as the data-model invariant words it: only lower-case
letters, digits and hyphens, with no leading, trailing or consecutive
hyphens. -/
def isUrlSafeSlug (s : String) : Bool :=
  s.data.all (fun c => isSlugKeep c || decide (c.toNat = 45)) &&
  noDoubleHyphen s.data &&
  decide (s.data.head? ≠ some '-') &&
  decide (s.data.getLast? ≠ some '-')

theorem normalizeSlug_urlSafe (s : String) : isUrlSafeSlug (normalizeSlug s) = true := by
  rw [normalizeSlug_eq_NF]
  simp only [isUrlSafeSlug, Bool.and_eq_true, List.all_eq_true, decide_eq_true_eq]
  refine ⟨⟨⟨?_, ?_⟩, ?_⟩, ?_⟩
  · intro x hx
    apply slugNF_chars ((jsTrimList s.data).map Char.toLower) false x
    exact List.Sublist.mem (mem_dropTrailing _ _ x hx) (List.dropWhile_sublist _)
  · exact noDouble_dropTrailing _ _
      (noDouble_dropWhile _ _ (slugNF_noDouble _ false))
  · intro h
    have := stripEdge_head _ _ h
    simp at this
  · intro h
    have := getLast?_dropTrailing _ _ _ h
    simp at this

/-! ## Claim theorems: slug normalization (C4) and the store slug invariant (C5) -/

/-- C4: the code normalizer computes exactly the function the
specification describes (lower-case, replace runs outside
`[a-z0-9\s-]` by hyphens, collapse whitespace runs, collapse hyphen
runs, strip edge hyphens); it is deterministic, maps
`"My Movie! 2023"` to `"my-movie-2023"`, maps `""` and `"!!!"` to the
empty string, and the registration handler rejects those labels
with 400. -/
theorem slug_normalization_spec :
    (∀ s : String, specNormalizeSlug s = normalizeSlug s) ∧
    (∀ s t : String, s = t → normalizeSlug s = normalizeSlug t) ∧
    normalizeSlug "My Movie! 2023" = "my-movie-2023" ∧
    normalizeSlug "" = "" ∧
    normalizeSlug "!!!" = "" ∧
    (∀ (st : Store) (u k : String) (fo : Option String) (probe : ProbeOutcome),
      (generateLinkHandler st ⟨u, k, "", fo⟩ probe).1.status = 400 ∧
      (generateLinkHandler st ⟨u, k, "!!!", fo⟩ probe).1.status = 400) := by
  refine ⟨specNormalizeSlug_eq_normalizeSlug, fun s t h => by rw [h], by decide, by decide,
    by decide, ?_⟩
  intro st u k fo probe
  constructor
  · have h : normalizeSlug "" = "" := by decide
    simp [generateLinkHandler, h]
  · have h : normalizeSlug "!!!" = "" := by decide
    simp [generateLinkHandler, h]

theorem slug_normalization_spec_witness :
    ("My Movie! 2023" : String) = "My Movie! 2023" ∧
    normalizeSlug "My Movie! 2023" = normalizeSlug "My Movie! 2023" :=
  ⟨rfl, slug_normalization_spec.2.1 "My Movie! 2023" "My Movie! 2023" rfl⟩

/-- C5: any slug whose mapping a registration call changes (i.e. under
which it persists a record) is non-empty and URL-safe: only lower-case
letters, digits and hyphens, with no leading, trailing or consecutive
hyphens. -/
theorem persisted_slug_urlsafe :
    ∀ (st : Store) (inp : GenInput) (probe : ProbeOutcome) (s : String),
      kvGet ((generateLinkHandler st inp probe).2) s ≠ kvGet st s →
      s ≠ "" ∧ isUrlSafeSlug s = true := by
  intro st inp probe s hchange
  by_cases hg : inp.url = "" ∨ inp.key = "" ∨ normalizeSlug inp.custom_id = ""
  · exfalso; apply hchange; simp [generateLinkHandler, if_pos hg]
  · cases hsome : (kvGet st (normalizeSlug inp.custom_id)).isSome with
    | true => exfalso; apply hchange; simp [generateLinkHandler, if_neg hg, hsome]
    | false =>
      simp only [generateLinkHandler, if_neg hg, hsome, Bool.false_eq_true, if_false]
        at hchange
      by_cases hs : s = normalizeSlug inp.custom_id
      · constructor
        · rw [hs]
          intro h
          exact hg (Or.inr (Or.inr h))
        · rw [hs]
          exact normalizeSlug_urlSafe _
      · exact absurd (kvGet_kvSet_ne st _ s _ hs) hchange

theorem persisted_slug_urlsafe_witness :
    kvGet (generateLinkHandler [] ⟨"u", "k", "My Movie! 2023", none⟩ ProbeOutcome.failure).2
      "my-movie-2023" ≠ kvGet [] "my-movie-2023" ∧
    ("my-movie-2023" : String) ≠ "" ∧
    isUrlSafeSlug "my-movie-2023" = true := by
  have h := persisted_slug_urlsafe [] ⟨"u", "k", "My Movie! 2023", none⟩ ProbeOutcome.failure
    "my-movie-2023" (by decide)
  exact ⟨by decide, h.1, h.2⟩

/-! ## Claim theorems: access guard (C3) and content-type resolver (C7) -/

/-- C3: when the administrative credential is unset, the administrative
check returns `false` for every supplied key and logs the
misconfiguration, the admin dashboard is never shown (the handler
renders the configuration-error page), and every delete request is
rejected with 403 leaving the store untouched. -/
theorem admin_fails_closed_when_unset :
    ∀ (key : Option String) (st : Store) (formId : Option String),
      checkAdminAuth none key = false ∧
      checkAdminAuthLogged none = true ∧
      adminPageHandler none st key = AdminView.configError ∧
      (deleteLinkHandler none key formId st).1.status = 403 ∧
      (deleteLinkHandler none key formId st).2 = st := by
  intro key st formId
  refine ⟨rfl, rfl, rfl, ?_, ?_⟩ <;> simp [deleteLinkHandler, checkAdminAuth]

/-- C7: the content-type resolver strips the parameter suffix after the
first semicolon and trims whitespace, then maps exactly by the fixed
five-entry table with `.mp4` as the default for any other or absent
value, and its result is never empty. -/
theorem mapContentTypeToExtension_spec :
    mapContentTypeToExtension none = ".mp4" ∧
    (∀ ct : String,
      mapContentTypeToExtension (some ct) =
        specExtensionTable (String.mk (jsTrimList (beforeSemicolon ct.data)))) ∧
    (∀ contentType : Option String, mapContentTypeToExtension contentType ≠ "") := by
  refine ⟨rfl, ?_, ?_⟩
  · intro ct
    by_cases hct : ct = ""
    · subst hct; decide
    · simp only [mapContentTypeToExtension, if_neg hct, specExtensionTable]
  · intro contentType
    match contentType with
    | none => simp [mapContentTypeToExtension]
    | some ct =>
      simp only [mapContentTypeToExtension]
      split
      · decide
      · split <;> first | decide | (split <;> first | decide | (split <;> first | decide |
          (split <;> first | decide | (split <;> decide))))

/-! ## Claim theorems: relay lookup and credential order (C2) -/

/-- C2: for both relay handlers, an absent slug yields 404 whatever key
was supplied, and a present slug with a mismatching key yields 403, so
existence is decided before the credential and the two cases are
distinguishable by status code. -/
theorem relay_lookup_before_credential :
    ∀ (st : Store) (id key : String) (range : Option String)
      (upstream : List (String × String) → FetchResponse) (fetchRes : FetchResponse),
      (kvGet st id = none →
        (streamVideoHandler st id key range upstream).status = 404 ∧
        (downloadVideoHandler st id key fetchRes).status = 404) ∧
      (∀ rec : LinkRecord, kvGet st id = some rec → rec.key ≠ key →
        (streamVideoHandler st id key range upstream).status = 403 ∧
        (downloadVideoHandler st id key fetchRes).status = 403) := by
  intro st id key range upstream fetchRes
  constructor
  · intro h
    constructor <;> simp [streamVideoHandler, downloadVideoHandler, h]
  · intro rec h hk
    constructor <;> simp [streamVideoHandler, downloadVideoHandler, h, hk]

theorem relay_lookup_before_credential_witness :
    (kvGet ([] : Store) "vid" = none ∧
      (streamVideoHandler [] "vid" "good" none (fun _ => ⟨200, [], some "b"⟩)).status = 404 ∧
      (downloadVideoHandler [] "vid" "good" ⟨200, [], some "b"⟩).status = 404) ∧
    (kvGet [("vid", ⟨"u", "secret", "f"⟩)] "vid" = some ⟨"u", "secret", "f"⟩ ∧
      ("secret" : String) ≠ "wrong" ∧
      (streamVideoHandler [("vid", ⟨"u", "secret", "f"⟩)] "vid" "wrong" none
        (fun _ => ⟨200, [], some "b"⟩)).status = 403 ∧
      (downloadVideoHandler [("vid", ⟨"u", "secret", "f"⟩)] "vid" "wrong"
        ⟨200, [], some "b"⟩).status = 403) := by
  have h1 := (relay_lookup_before_credential [] "vid" "good" none
    (fun _ => ⟨200, [], some "b"⟩) ⟨200, [], some "b"⟩).1 (by decide)
  have h2 := (relay_lookup_before_credential [("vid", ⟨"u", "secret", "f"⟩)] "vid" "wrong" none
    (fun _ => ⟨200, [], some "b"⟩) ⟨200, [], some "b"⟩).2 ⟨"u", "secret", "f"⟩
    (by decide) (by decide)
  exact ⟨⟨by decide, h1.1, h1.2⟩, ⟨by decide, by decide, h2.1, h2.2⟩⟩

/-! ## Claim theorems: download-mode relay headers (C8) -/

/-- C8: on a successful upstream fetch the download relay returns the
upstream body unmodified with status 200, forces
`Content-Type: application/octet-stream`, sets an attachment
`Content-Disposition` carrying both the underscore-sanitized ASCII
fallback filename and the percent-encoded UTF-8 `filename*` parameter,
and forwards the upstream `Content-Length` exactly when the upstream
supplied a non-empty one. -/
theorem download_relay_success_headers :
    ∀ (st : Store) (id key : String) (fetchRes : FetchResponse) (rec : LinkRecord),
      kvGet st id = some rec → rec.key = key →
      fetchOk fetchRes = true → fetchRes.body ≠ none →
      (downloadVideoHandler st id key fetchRes).status = 200 ∧
      (downloadVideoHandler st id key fetchRes).body = fetchRes.body ∧
      hGet (downloadVideoHandler st id key fetchRes).headers "Content-Type" =
        some "application/octet-stream" ∧
      hGet (downloadVideoHandler st id key fetchRes).headers "Content-Disposition" =
        some ("attachment; filename=\"" ++
          String.mk (rec.filename.data.map (fun c => if isFnameSafe c then c else '_')) ++
          "\"; filename*=UTF-8" ++ apos ++ apos ++ encodeURIComponent rec.filename) ∧
      ((∃ v, hGet fetchRes.headers "Content-Length" = some v ∧ v ≠ "") →
        hGet (downloadVideoHandler st id key fetchRes).headers "Content-Length" =
          hGet fetchRes.headers "Content-Length") ∧
      (hGet fetchRes.headers "Content-Length" = none →
        hGet (downloadVideoHandler st id key fetchRes).headers "Content-Length" = none) ∧
      (hGet fetchRes.headers "Content-Length" = some "" →
        hGet (downloadVideoHandler st id key fetchRes).headers "Content-Length" = none) := by
  intro st id key fetchRes rec hget hkey hok hbody
  have hhandler : downloadVideoHandler st id key fetchRes =
      ⟨200,
        (match hGet fetchRes.headers "Content-Length" with
        | some v =>
          if v = "" then
            hSet (hSet [] "Content-Disposition"
              ("attachment; filename=\"" ++ sanitizeFilename rec.filename ++
                "\"; filename*=UTF-8" ++ apos ++ apos ++ encodeURIComponent rec.filename))
              "Content-Type" "application/octet-stream"
          else
            hSet (hSet (hSet [] "Content-Disposition"
              ("attachment; filename=\"" ++ sanitizeFilename rec.filename ++
                "\"; filename*=UTF-8" ++ apos ++ apos ++ encodeURIComponent rec.filename))
              "Content-Type" "application/octet-stream") "Content-Length" v
        | none =>
          hSet (hSet [] "Content-Disposition"
            ("attachment; filename=\"" ++ sanitizeFilename rec.filename ++
              "\"; filename*=UTF-8" ++ apos ++ apos ++ encodeURIComponent rec.filename))
            "Content-Type" "application/octet-stream"),
        fetchRes.body⟩ := by
    simp [downloadVideoHandler, hget, hkey, hok, hbody]
  refine ⟨by rw [hhandler], by rw [hhandler], ?_, ?_, ?_, ?_, ?_⟩ <;> rw [hhandler]
  · cases hcl : hGet fetchRes.headers "Content-Length" with
    | none => simp only [hcl, hGet_hSet_self]
    | some v =>
      by_cases hv : v = ""
      · simp only [hcl, if_pos hv, hGet_hSet_self]
      · simp only [hcl, if_neg hv]
        rw [hGet_hSet_ne _ "Content-Length" v "Content-Type" (by decide), hGet_hSet_self]
  · cases hcl : hGet fetchRes.headers "Content-Length" with
    | none =>
      simp only [hcl]
      rw [hGet_hSet_ne _ "Content-Type" _ "Content-Disposition" (by decide), hGet_hSet_self]
      rfl
    | some v =>
      by_cases hv : v = ""
      · simp only [hcl, if_pos hv]
        rw [hGet_hSet_ne _ "Content-Type" _ "Content-Disposition" (by decide), hGet_hSet_self]
        rfl
      · simp only [hcl, if_neg hv]
        rw [hGet_hSet_ne _ "Content-Length" v "Content-Disposition" (by decide),
          hGet_hSet_ne _ "Content-Type" _ "Content-Disposition" (by decide), hGet_hSet_self]
        rfl
  · rintro ⟨v, hcl, hv⟩
    simp only [hcl, if_neg hv, hGet_hSet_self]
  · intro hcl
    simp only [hcl]
    rw [hGet_hSet_ne _ "Content-Type" _ "Content-Length" (by decide),
      hGet_hSet_ne _ "Content-Disposition" _ "Content-Length" (by decide)]
    rfl
  · intro hcl
    simp only [hcl, if_true]
    rw [hGet_hSet_ne _ "Content-Type" _ "Content-Length" (by decide),
      hGet_hSet_ne _ "Content-Disposition" _ "Content-Length" (by decide)]
    rfl

theorem download_relay_success_headers_witness :
    kvGet [("vid", ⟨"u", "k", "clip one.mp4"⟩)] "vid" = some ⟨"u", "k", "clip one.mp4"⟩ ∧
    fetchOk ⟨200, [("Content-Length", "42")], some "body"⟩ = true ∧
    (downloadVideoHandler [("vid", ⟨"u", "k", "clip one.mp4"⟩)] "vid" "k"
      ⟨200, [("Content-Length", "42")], some "body"⟩).status = 200 ∧
    hGet (downloadVideoHandler [("vid", ⟨"u", "k", "clip one.mp4"⟩)] "vid" "k"
      ⟨200, [("Content-Length", "42")], some "body"⟩).headers "Content-Length" =
      hGet [("Content-Length", "42")] "Content-Length" := by
  have h := download_relay_success_headers [("vid", ⟨"u", "k", "clip one.mp4"⟩)] "vid" "k"
    ⟨200, [("Content-Length", "42")], some "body"⟩ ⟨"u", "k", "clip one.mp4"⟩
    (by decide) rfl (by decide) (by decide)
  exact ⟨by decide, by decide, h.1, h.2.2.2.2.1 ⟨"42", by decide, by decide⟩⟩

/-! ## Claim theorems: stream-mode relay (C9) -/

/-- C9: the stream relay forwards the caller Range header (when
present) unchanged on the upstream GET, and on upstream success relays
the upstream status and body unmodified, copies through every upstream
response header except that `Accept-Ranges` is forced to `bytes` and
any upstream `Content-Disposition` is removed. -/
theorem stream_relay_range_passthrough :
    ∀ (st : Store) (id key : String) (range : Option String)
      (upstream : List (String × String) → FetchResponse) (rec : LinkRecord)
      (resp : FetchResponse),
      kvGet st id = some rec → rec.key = key →
      resp = upstream (match range with | some r => [("Range", r)] | none => []) →
      fetchOk resp = true →
      (streamVideoHandler st id key range upstream).status = resp.status ∧
      (streamVideoHandler st id key range upstream).body = resp.body ∧
      hGet (streamVideoHandler st id key range upstream).headers "Accept-Ranges" =
        some "bytes" ∧
      hGet (streamVideoHandler st id key range upstream).headers "Content-Disposition" =
        none ∧
      (∀ name : String, lowerName name ≠ lowerName "Accept-Ranges" →
        lowerName name ≠ lowerName "Content-Disposition" →
        hGet (streamVideoHandler st id key range upstream).headers name =
          hGet resp.headers name) := by
  intro st id key range upstream rec resp hget hkey hresp hok
  have hhandler : streamVideoHandler st id key range upstream =
      ⟨resp.status, hDelete (hSet resp.headers "Accept-Ranges" "bytes") "Content-Disposition",
        resp.body⟩ := by
    simp [streamVideoHandler, hget, hkey, ← hresp, hok]
  refine ⟨by rw [hhandler], by rw [hhandler], ?_, ?_, ?_⟩ <;> rw [hhandler]
  · rw [hGet_hDelete_ne _ _ _ (by decide), hGet_hSet_self]
  · exact hGet_hDelete_self _ _
  · intro name h1 h2
    rw [hGet_hDelete_ne _ _ _ h2, hGet_hSet_ne _ _ _ _ h1]

theorem stream_relay_range_passthrough_witness :
    kvGet [("vid", ⟨"u", "k", "f"⟩)] "vid" = some ⟨"u", "k", "f"⟩ ∧
    (streamVideoHandler [("vid", ⟨"u", "k", "f"⟩)] "vid" "k" (some "bytes=0-99")
      (fun hs => if hs = [("Range", "bytes=0-99")] then
        ⟨206, [("Content-Range", "bytes 0-99/500"), ("Content-Disposition", "attachment")],
          some "chunk"⟩
      else ⟨500, [], none⟩)).status = 206 ∧
    hGet (streamVideoHandler [("vid", ⟨"u", "k", "f"⟩)] "vid" "k" (some "bytes=0-99")
      (fun hs => if hs = [("Range", "bytes=0-99")] then
        ⟨206, [("Content-Range", "bytes 0-99/500"), ("Content-Disposition", "attachment")],
          some "chunk"⟩
      else ⟨500, [], none⟩)).headers "Accept-Ranges" = some "bytes" ∧
    hGet (streamVideoHandler [("vid", ⟨"u", "k", "f"⟩)] "vid" "k" (some "bytes=0-99")
      (fun hs => if hs = [("Range", "bytes=0-99")] then
        ⟨206, [("Content-Range", "bytes 0-99/500"), ("Content-Disposition", "attachment")],
          some "chunk"⟩
      else ⟨500, [], none⟩)).headers "Content-Disposition" = none := by
  have h := stream_relay_range_passthrough [("vid", ⟨"u", "k", "f"⟩)] "vid" "k"
    (some "bytes=0-99")
    (fun hs => if hs = [("Range", "bytes=0-99")] then
      ⟨206, [("Content-Range", "bytes 0-99/500"), ("Content-Disposition", "attachment")],
        some "chunk"⟩
    else ⟨500, [], none⟩)
    ⟨"u", "k", "f"⟩
    ⟨206, [("Content-Range", "bytes 0-99/500"), ("Content-Disposition", "attachment")],
      some "chunk"⟩
    (by decide) rfl (by decide) (by decide)
  exact ⟨by decide, h.1, h.2.2.1, h.2.2.2.1⟩

/-! ## Claim theorems: missing or empty key parameter (C10) -/

/-- C10: a GET request to a stream or download route whose `key` query
parameter is absent or empty is answered 401 with the store untouched;
the response is the same for every store and every upstream, so neither
the link store nor the upstream is consulted, and the empty key never
reaches the per-link comparison. -/
theorem missing_key_rejected_first :
    ∀ (adminPassword : Option String) (st : Store) (req : HttpReq)
      (upstream : List (String × String) → FetchResponse)
      (downloadFetch : FetchResponse) (probe : ProbeOutcome) (slug : String),
      req.method = "GET" →
      (req.path = ["download", slug] ∨ req.path = ["stream", slug]) →
      slug ≠ "" →
      (req.keyParam = none ∨ req.keyParam = some "") →
      serve adminPassword st req upstream downloadFetch probe = (⟨401, [], none⟩, st) := by
  intro adminPassword st req upstream downloadFetch probe slug hm hpath hslug hkey
  have hkt : keyTruthy req.keyParam = false := by
    rcases hkey with h | h <;> simp [h, keyTruthy]
  rcases hpath with h | h <;>
    · simp only [serve, h, hm]
      simp [hslug, hkt]

theorem missing_key_rejected_first_witness :
    (["download", "vid"] : List String) = ["download", "vid"] ∧
    ("vid" : String) ≠ "" ∧
    serve (some "admin") [("vid", ⟨"u", "k", "f"⟩)]
      ⟨"GET", ["download", "vid"], none, none, ⟨"", "", "", none⟩, none⟩
      (fun _ => ⟨200, [], some "b"⟩) ⟨200, [], some "b"⟩ ProbeOutcome.failure =
      (⟨401, [], none⟩, [("vid", ⟨"u", "k", "f"⟩)]) := by
  refine ⟨rfl, by decide, ?_⟩
  exact missing_key_rejected_first (some "admin") [("vid", ⟨"u", "k", "f"⟩)]
    ⟨"GET", ["download", "vid"], none, none, ⟨"", "", "", none⟩, none⟩
    (fun _ => ⟨200, [], some "b"⟩) ⟨200, [], some "b"⟩ ProbeOutcome.failure "vid"
    rfl (Or.inl rfl) (by decide) (Or.inl rfl)

/-! ## Claim theorems: registration never overwrites (C1) -/

/-- C1: whenever a slug `s` already maps to a record `r`, no
registration changes that mapping; a registration whose custom label
normalizes to `s` leaves the store unchanged, and (when it passes the
input validation that precedes the uniqueness check, i.e. the url, the
key and the normalized slug are non-empty) it fails with 409 SlugTaken. -/
theorem registration_never_overwrites :
    ∀ (st : Store) (inp : GenInput) (probe : ProbeOutcome) (s : String) (r : LinkRecord),
      kvGet st s = some r →
      kvGet ((generateLinkHandler st inp probe).2) s = some r ∧
      (normalizeSlug inp.custom_id = s →
        (generateLinkHandler st inp probe).2 = st ∧
        (inp.url ≠ "" → inp.key ≠ "" → s ≠ "" →
          (generateLinkHandler st inp probe).1.status = 409)) := by
  intro st inp probe s r hr
  by_cases hg : inp.url = "" ∨ inp.key = "" ∨ normalizeSlug inp.custom_id = ""
  · simp only [generateLinkHandler, if_pos hg]
    refine ⟨hr, fun hs => ⟨trivial, fun hu hk hne => ?_⟩⟩
    rcases hg with h | h | h
    · exact absurd h hu
    · exact absurd h hk
    · rw [hs] at h; exact absurd h hne
  · simp only [generateLinkHandler, if_neg hg]
    by_cases hseq : normalizeSlug inp.custom_id = s
    · rw [hseq]
      have hsome : (kvGet st s).isSome = true := by rw [hr]; rfl
      simp only [hsome, if_true]
      exact ⟨hr, fun _ => ⟨trivial, fun _ _ _ => trivial⟩⟩
    · by_cases hsome : (kvGet st (normalizeSlug inp.custom_id)).isSome = true
      · simp only [hsome, if_true]
        exact ⟨hr, fun hs => absurd hs hseq⟩
      · simp only [hsome, if_false, Bool.false_eq_true]
        refine ⟨?_, fun hs => absurd hs hseq⟩
        rw [kvGet_kvSet_ne _ _ _ _ (fun he => hseq he.symm)]
        exact hr

theorem registration_never_overwrites_witness :
    kvGet [("taken", ⟨"u", "k", "file"⟩)] "taken" = some ⟨"u", "k", "file"⟩ ∧
    normalizeSlug "Taken!" = "taken" ∧
    (generateLinkHandler [("taken", ⟨"u", "k", "file"⟩)] ⟨"http://x", "kk", "Taken!", none⟩
      ProbeOutcome.failure).2 = [("taken", ⟨"u", "k", "file"⟩)] ∧
    (generateLinkHandler [("taken", ⟨"u", "k", "file"⟩)] ⟨"http://x", "kk", "Taken!", none⟩
      ProbeOutcome.failure).1.status = 409 := by
  have h := registration_never_overwrites [("taken", ⟨"u", "k", "file"⟩)]
    ⟨"http://x", "kk", "Taken!", none⟩ ProbeOutcome.failure "taken" ⟨"u", "k", "file"⟩
    (by decide)
  have h2 := h.2 (by decide)
  exact ⟨by decide, by decide, h2.1, h2.2 (by decide) (by decide) (by decide)⟩

/-! ## Claim theorems: the best-effort probe (C6) -/

/-- C6 counterexample: with no filename override, a probe that resolves
with a non-success status (here 500) and a `Content-Type` of
`application/octet-stream` does not make the registration fall back to
`slug + ".mp4"`: the registration succeeds but persists `clip.bin`,
because the handler never inspects the probe response status. -/
theorem probe_nonsuccess_status_counterexample :
    (generateLinkHandler [] ⟨"http://u", "k", "clip", none⟩
      (ProbeOutcome.response 500 (some "application/octet-stream"))).1.status = 200 ∧
    kvGet (generateLinkHandler [] ⟨"http://u", "k", "clip", none⟩
      (ProbeOutcome.response 500 (some "application/octet-stream"))).2 "clip" =
      some ⟨"http://u", "k", "clip.bin"⟩ ∧
    ("clip.bin" : String) ≠ "clip" ++ ".mp4" := by decide

/-- C6 (amended): when registration is called without a non-blank
filename override, no probe outcome ever fails the registration; a
thrown probe error (network failure or any exception) falls back to
`slug + ".mp4"`, while a resolved probe response — whatever its status,
success or not — yields `slug` plus the extension derived from the
response `Content-Type`. -/
theorem probe_failure_never_fatal :
    ∀ (st : Store) (inp : GenInput) (probe : ProbeOutcome),
      (inp.filename.map jsTrimStr = none ∨ inp.filename.map jsTrimStr = some "") →
      inp.url ≠ "" → inp.key ≠ "" → normalizeSlug inp.custom_id ≠ "" →
      kvGet st (normalizeSlug inp.custom_id) = none →
      (generateLinkHandler st inp probe).1.status = 200 ∧
      kvGet (generateLinkHandler st inp probe).2 (normalizeSlug inp.custom_id) =
        some ⟨inp.url, inp.key,
          match probe with
          | .response _ contentType =>
            normalizeSlug inp.custom_id ++ mapContentTypeToExtension contentType
          | .failure => normalizeSlug inp.custom_id ++ ".mp4"⟩ := by
  intro st inp probe hov hu hk hs hfree
  have hg : ¬(inp.url = "" ∨ inp.key = "" ∨ normalizeSlug inp.custom_id = "") := by
    rintro (h | h | h)
    · exact hu h
    · exact hk h
    · exact hs h
  have hsome : (kvGet st (normalizeSlug inp.custom_id)).isSome = false := by
    rw [hfree]; rfl
  simp only [generateLinkHandler, if_neg hg, hsome, if_false, Bool.false_eq_true]
  refine ⟨trivial, ?_⟩
  rw [kvGet_kvSet_self]
  rcases hov with h | h
  · rw [h]
  · rw [h]; cases probe <;> rfl

theorem probe_failure_never_fatal_witness :
    normalizeSlug "vid" ≠ "" ∧
    (generateLinkHandler [] ⟨"http://u", "k", "vid", none⟩ ProbeOutcome.failure).1.status =
      200 ∧
    kvGet (generateLinkHandler [] ⟨"http://u", "k", "vid", none⟩ ProbeOutcome.failure).2
      (normalizeSlug "vid") = some ⟨"http://u", "k", "vid.mp4"⟩ := by
  have h := probe_failure_never_fatal [] ⟨"http://u", "k", "vid", none⟩ ProbeOutcome.failure
    (Or.inl rfl) (by decide) (by decide) (by decide) (by decide)
  exact ⟨by decide, h.1, h.2⟩

end VLink
